import Mathlib

/-!
Verification of the UHF RFID driver protocol engine of this repository
(`src/firmware/old/RFID_TEST/rfid_test_readings/UNIT_UHF_RFID.cpp`, with the
class declaration in `src/firmware/RFID+UWB_TEST/rfid_uwb/UNIT_UHF_RFID.h`).

Modelling conventions:
* machine bytes are `Nat`s; every `uint8_t` truncation in the C code is made
  explicit with `% 256` at the point where the C code truncates;
* the 256-byte member array `uint8_t buffer[256]` is modelled as a function
  `Nat → Nat`;
* the serial transport seen by `waitMsg` (the blocking receive loop) is
  modelled by the list of bytes the UART delivers before the deadline; a
  separate clocked model `waitLoopT` is used for the timing claim;
* the constant command templates that live in the repository's `CMD.h`
  (which is not part of the sources) are universally quantified (`tmpl`)
  everywhere: none of the verified claims depends on their contents;
* `waitMsg`'s final check reads `buffer[i - 1]` with `i` a `uint8_t`; when
  `i` is 0 that is an out-of-bounds read (`buffer[-1]`).  The model takes the
  value produced by that read as an extra parameter `oob`.
-/

namespace UHF

/-- Write one byte into the modelled 256-byte `buffer`. -/
def writeBuf (buf : Nat → Nat) (j v : Nat) : Nat → Nat :=
  fun k => if k = j then v else buf k

/-- `Unit_UHF_RFID::cleanBuffer`: `for (int i = 0; i < 200; i++) buffer[i] = 0;` —
it zeroes only the first 200 of the 256 buffer bytes. -/
def cleanBuffer (buf : Nat → Nat) : Nat → Nat :=
  fun j => if j < 200 then 0 else buf j

/-- `memcpy(buffer, tmpl, sizeof tmpl)`: overwrite the first `src.length`
buffer bytes with the template. -/
def memcpyBuf (buf : Nat → Nat) (src : List Nat) : Nat → Nat :=
  fun j => if j < src.length then src.getD j 0 else buf j

/-- `buf lo + buf (lo+1) + ... + buf (lo+n-1)`: the running checksum loops
`for (uint8_t i = lo; i < lo+n; i++) check += buffer[i];` accumulate exactly
this sum (the `uint8_t` accumulator truncates to the same value `% 256`). -/
def sumBytes (buf : Nat → Nat) (lo : Nat) : Nat → Nat
  | 0 => 0
  | n + 1 => sumBytes buf lo n + buf (lo + n)

/-- Frame construction part of `Unit_UHF_RFID::setTxPower(uint16_t db)`:
copy the `SET_TX_POWER` template, store the power value big-endian at
bytes 5 and 6, and store the 8-bit sum of bytes 1..6 at byte 7. -/
def setTxPowerFrame (tmpl : List Nat) (buf0 : Nat → Nat) (db : Nat) : Nat → Nat :=
  let b1 := memcpyBuf buf0 tmpl
  let b2 := writeBuf b1 5 ((db >>> 8) % 256)
  let b3 := writeBuf b2 6 (db % 256)
  writeBuf b3 7 (sumBytes b3 1 6 % 256)

/-- Checksum of a complete frame list, as computed by
`for (i = 1; i < sizeof(cmd) - 2; i++) checksum += cmd[i];`:
the 8-bit sum of the bytes at indices `1 .. length - 3`. -/
def checksumList (l : List Nat) : Nat :=
  (((l.drop 1).take (l.length - 3)).sum) % 256

/-- The raw `setRegionCmd` array of `Unit_UHF_RFID::setRegion` before the
checksum is patched in: `{0xBB, 0x00, 0x07, 0x00, 0x01, regionCode, 0x00, 0x7E}`
(`regionCode` is a `uint8_t` parameter, hence the `% 256`). -/
def setRegionCmd (regionCode : Nat) : List Nat :=
  [0xbb, 0x00, 0x07, 0x00, 0x01, regionCode % 256, 0x00, 0x7e]

/-- `Unit_UHF_RFID::setRegion`: build the region frame, patch the checksum
into the next-to-last byte, send it, `delay(200)`, drain and discard every
available response byte, and return `true`.  The function never inspects the
response, so the model returns the constant result together with the frame
that was sent; `response` is the byte list the module would have answered
(it is read and thrown away by the drain loop). -/
def setRegion (regionCode : Nat) (_response : List Nat) : Bool × List Nat :=
  let cmd := setRegionCmd regionCode
  let sent := cmd.set (cmd.length - 2) (checksumList cmd)
  (true, sent)

/-- Global helper `hex2str(uint8_t num)`: Arduino `String(num, HEX)` renders
lowercase hexadecimal with no padding, and the code prepends "0" whenever
`num <= 0xf`. -/
def hex2str (num : Nat) : String :=
  if num > 0xf then (Nat.toDigits 16 num).asString
  else "0" ++ (Nat.toDigits 16 num).asString

/-- The `CARD` struct of `UNIT_UHF_RFID.h`: RSSI byte, 2 PC bytes, 12 EPC
bytes, and the cached hexadecimal string renderings of each. -/
structure CARD where
  rssi : Nat
  pc : List Nat
  epc : List Nat
  rssi_str : String
  pc_str : String
  epc_str : String
deriving DecidableEq

/-- One cleared registry slot, as written by `cleanCardsBuffer`. -/
def emptyCARD : CARD :=
  ⟨0, [0, 0], List.replicate 12 0, "", "", ""⟩

/-- `Unit_UHF_RFID::cleanCardsBuffer`: reset all 200 registry slots. -/
def cleanCardsBuffer : List CARD := List.replicate 200 emptyCARD

/-- `Unit_UHF_RFID::filterCardInfo(String epc)`: scan the 200 slots and
return false as soon as one holds the same EPC string, true otherwise. -/
def filterCardInfo (cards : List CARD) (epc : String) : Bool :=
  !(cards.any fun c => epc == c.epc_str)

/-- The EPC string `saveCardInfo` renders from `buffer[8] .. buffer[19]`
(the loop `for (i = 8; i < 20; i++) epc += hex2str(buffer[i]);`, unrolled). -/
def epcStringOf (buf : Nat → Nat) : String :=
  hex2str (buf 8) ++ hex2str (buf 9) ++ hex2str (buf 10) ++ hex2str (buf 11) ++
  hex2str (buf 12) ++ hex2str (buf 13) ++ hex2str (buf 14) ++ hex2str (buf 15) ++
  hex2str (buf 16) ++ hex2str (buf 17) ++ hex2str (buf 18) ++ hex2str (buf 19)

/-- The record `saveCardInfo` fills in from the response buffer: RSSI from
`buffer[5]`, PC from `buffer[6..7]`, EPC bytes from `buffer[8..19]`, plus
the cached string renderings of each. -/
def cardOf (buf : Nat → Nat) : CARD where
  rssi := buf 5
  pc := [buf 6, buf 7]
  epc := [buf 8, buf 9, buf 10, buf 11, buf 12, buf 13, buf 14, buf 15,
          buf 16, buf 17, buf 18, buf 19]
  rssi_str := hex2str (buf 5)
  pc_str := hex2str (buf 6) ++ hex2str (buf 7)
  epc_str := epcStringOf buf

/-- `Unit_UHF_RFID::saveCardInfo(&cards[slot])`: compute the strings, reject
(storing nothing) if `filterCardInfo` finds the EPC string already present,
otherwise fill the slot and return true. -/
def saveCardInfo (buf : Nat → Nat) (cards : List CARD) (slot : Nat) : Bool × List CARD :=
  if filterCardInfo cards (epcStringOf buf) then (true, cards.set slot (cardOf buf))
  else (false, cards)

/-- Result of the receive loop inside `waitMsg`: the buffer after the loop,
the final value of the byte counter `i` (kept as an unbounded `Nat` count of
bytes read; the C `uint8_t` value is this count `% 256`), and whether the
loop ended with `break` on a 0x7E byte. -/
structure RecvOut where
  buf : Nat → Nat
  cnt : Nat
  broke : Bool

/-- The receive loop of `Unit_UHF_RFID::waitMsg`: store each delivered byte at
`buffer[i]` (the `uint8_t` index wraps at 256), increment `i`, and `break` as
soon as a 0x7E byte is read.  The list argument is the sequence of bytes the
serial port delivers before the deadline; exhausting it models the timeout
expiring with no byte pending. -/
def recvLoop : List Nat → (Nat → Nat) → Nat → RecvOut
  | [], buf, i => ⟨buf, i, false⟩
  | b :: rest, buf, i =>
      if b = 0x7e then ⟨writeBuf buf (i % 256) b, i + 1, true⟩
      else recvLoop rest (writeBuf buf (i % 256) b) (i + 1)

/-- The final marker check of `waitMsg`:
`buffer[0] == 0xbb && buffer[i - 1] == 0x7e`.  `oob` is the value produced by
the out-of-bounds read `buffer[-1]` that the C code performs when the
`uint8_t` counter `i` is 0 (the `int` promotion of `i - 1` is then `-1`). -/
def waitMsgCheck (buf : Nat → Nat) (cnt oob : Nat) : Bool :=
  buf 0 == 0xbb && (if cnt % 256 = 0 then oob else buf (cnt % 256 - 1)) == 0x7e

/-- Result of one `waitMsg` call: the returned boolean, the buffer contents
after the call, and the number of bytes read. -/
structure MsgOut where
  ok : Bool
  buf : Nat → Nat
  cnt : Nat

/-- `Unit_UHF_RFID::waitMsg` over the list of bytes the serial port delivers
before the deadline: clear the first 200 buffer bytes, run the receive loop,
then validate the start and end markers. -/
def waitMsg (buf0 : Nat → Nat) (stream : List Nat) (oob : Nat) : MsgOut :=
  let r := recvLoop stream (cleanBuffer buf0) 0
  ⟨waitMsgCheck r.buf r.cnt oob, r.buf, r.cnt⟩

/-- The bytes `waitMsg`'s loop actually reads from a delivered stream: the
prefix up to and including the first 0x7E byte, or the whole stream if no
0x7E occurs. -/
def consumed : List Nat → List Nat
  | [] => []
  | b :: rest => if b = 0x7e then [b] else b :: consumed rest

/-- The shared receive-and-store loop of `pollingOnce` and `pollingMultiple`:
repeat `waitMsg`; on success, when the received frame carries the 0x7E of a
single-tag inventory response at index 23, try to store the tag at slot
`count`; when 200 tags are already stored, stop and report 200
(`pollingOnce` issues `return 200` there, `pollingMultiple` issues `break`
and then returns `count`, which equals 200); stop as soon as `waitMsg`
fails.  `exchanges` is the list of byte streams the serial port delivers to
the successive `waitMsg` calls. -/
def pollLoop (oob : Nat) : List (List Nat) → (Nat → Nat) → List CARD → Nat → Nat × List CARD
  | [], _, cards, count => (count, cards)
  | s :: rest, buf, cards, count =>
      let m := waitMsg buf s oob
      if m.ok then
        if m.buf 23 == 0x7e then
          if count < 200 then
            let r := saveCardInfo m.buf cards count
            pollLoop oob rest m.buf r.2 (if r.1 then count + 1 else count)
          else (200, cards)
        else pollLoop oob rest m.buf cards count
      else (count, cards)

/-- `Unit_UHF_RFID::pollingOnce`: clear the registry, send the poll command,
and run the receive-and-store loop starting from an empty count. -/
def pollingOnce (exchanges : List (List Nat)) (oob : Nat) (buf0 : Nat → Nat) :
    Nat × List CARD :=
  pollLoop oob exchanges buf0 cleanCardsBuffer 0

/-- `Unit_UHF_RFID::pollingMultiple(polling_count)`: clear the registry,
build the multi-poll command in the shared buffer (template from `CMD.h`,
polling count big-endian at bytes 6..7, 8-bit sum of bytes 1..7 stored at
byte 8), send it, and run the same receive-and-store loop. -/
def pollingMultiple (tmpl : List Nat) (pcount : Nat) (exchanges : List (List Nat))
    (oob : Nat) (buf0 : Nat → Nat) : Nat × List CARD :=
  let b1 := memcpyBuf buf0 tmpl
  let b2 := writeBuf b1 6 ((pcount >>> 8) % 256)
  let b3 := writeBuf b2 7 (pcount % 256)
  let b4 := writeBuf b3 8 (sumBytes b3 1 7 % 256)
  pollLoop oob exchanges b4 cleanCardsBuffer 0

/-- The data-copy loop of `writeCard`:
`for (i = 0; i < size; i++) { buffer[14 + i] = data[i]; offset++; }`. -/
def writeData (buf : Nat → Nat) (start : Nat) : List Nat → (Nat → Nat)
  | [] => buf
  | d :: rest => writeData (writeBuf buf start d) (start + 1) rest

/-- Frame construction part of
`Unit_UHF_RFID::writeCard(data, size, membank, sa, access_password)`: copy
the `WRITE_STORAGE_CMD` template, store the access password big-endian at
bytes 5..8, the memory bank at 9, the start address big-endian at 10..11,
the `uint8_t` word count `size / 2` big-endian at 12..13, the payload at
14.., then the 8-bit sum of bytes 1..offset-1 at `offset` and the 0x7E
terminator at `offset + 1`, where `offset` is the `uint8_t` running index
`14 + size`.  Returns the buffer and `offset`. -/
def writeCardFrame (tmpl : List Nat) (buf0 : Nat → Nat) (data : List Nat)
    (membank sa pw : Nat) : (Nat → Nat) × Nat :=
  let b1 := memcpyBuf buf0 tmpl
  let b2 := writeBuf b1 5 ((pw >>> 24) % 256)
  let b3 := writeBuf b2 6 ((pw >>> 16) % 256)
  let b4 := writeBuf b3 7 ((pw >>> 8) % 256)
  let b5 := writeBuf b4 8 (pw % 256)
  let b6 := writeBuf b5 9 (membank % 256)
  let b7 := writeBuf b6 10 ((sa >>> 8) % 256)
  let b8 := writeBuf b7 11 (sa % 256)
  let word := (data.length / 2) % 256
  let b9 := writeBuf b8 12 ((word >>> 8) % 256)
  let b10 := writeBuf b9 13 (word % 256)
  let offset := (14 + data.length) % 256
  let b11 := writeData b10 14 data
  let b12 := writeBuf b11 offset (sumBytes b11 1 (offset - 1) % 256)
  (writeBuf b12 (offset + 1) 0x7e, offset)

/-- Frame construction part of
`Unit_UHF_RFID::readCard(data, size, membank, sa, access_password)`: copy
the `READ_STORAGE_CMD` template, store the access password big-endian at
bytes 5..8, the memory bank at 9, the `uint8_t` word count `size / 2`
big-endian at 12..13, and the 8-bit sum of bytes 1..13 at byte 14.  The C
code never stores the start address `sa`; bytes 10..11 keep their template
values. -/
def readCardCmd (tmpl : List Nat) (buf0 : Nat → Nat) (size membank pw : Nat) : Nat → Nat :=
  let b1 := memcpyBuf buf0 tmpl
  let b2 := writeBuf b1 5 ((pw >>> 24) % 256)
  let b3 := writeBuf b2 6 ((pw >>> 16) % 256)
  let b4 := writeBuf b3 7 ((pw >>> 8) % 256)
  let b5 := writeBuf b4 8 (pw % 256)
  let b6 := writeBuf b5 9 (membank % 256)
  let word := (size / 2) % 256
  let b7 := writeBuf b6 12 ((word >>> 8) % 256)
  let b8 := writeBuf b7 13 (word % 256)
  writeBuf b8 14 (sumBytes b8 1 13 % 256)

/-- `Unit_UHF_RFID::readCard`: build and send the read command, wait for a
response, fail on timeout or marker mismatch, fail when the response's
command-echo byte at index 2 matches the error signature
`READ_STORAGE_ERROR[2]` (a constant of the repository's `CMD.h`, which is
not among the sources; it is abstracted here as `errSig`), and only on
success overwrite the caller's `data` with the `size` bytes at response
offset 20.  `_sa` mirrors the unused start-address parameter of the C
signature. -/
def readCard (errSig : Nat) (tmpl : List Nat) (buf0 : Nat → Nat) (stream : List Nat)
    (oob : Nat) (data : List Nat) (size membank _sa pw : Nat) : Bool × List Nat :=
  let m := waitMsg (readCardCmd tmpl buf0 size membank pw) stream oob
  if m.ok then
    if errSig == m.buf 2 then (false, data)
    else (true, (List.range size).map fun k => m.buf (20 + k))
  else (false, data)

/-- Default timeout of `waitMsg`, from the declaration
`bool waitMsg(unsigned long timerout = 500);` in `UNIT_UHF_RFID.h`. -/
def waitMsgDefaultTimeout : Nat := 500

/-- Clocked model of the `waitMsg` receive loop
`while (_serial->available() || (millis() - start) < time)`: iteration `k`
observes `avail k` (the byte `read()` returns when `available()` is nonzero,
`none` when no byte is pending) and `clock k` (the value `millis()` returns
at that iteration).  `fuel` bounds how many iterations are modelled; the
result `none` means the loop was still running after `fuel` iterations.  On
exit the model returns the buffer, the byte count, the exit iteration, and
whether the exit was the `break` on a 0x7E byte. -/
def waitLoopT (clock : Nat → Nat) (avail : Nat → Option Nat) (start time : Nat) :
    Nat → Nat → (Nat → Nat) → Nat → Option ((Nat → Nat) × Nat × Nat × Bool)
  | 0, _, _, _ => none
  | fuel + 1, k, buf, i =>
      match avail k with
      | some b =>
          if b = 0x7e then some (writeBuf buf (i % 256) b, i + 1, k, true)
          else waitLoopT clock avail start time fuel (k + 1) (writeBuf buf (i % 256) b) (i + 1)
      | none =>
          if clock k - start < time then waitLoopT clock avail start time fuel (k + 1) buf i
          else some (buf, i, k, false)

/-- Clocked `waitMsg`: record `start = millis()` at entry (iteration 0),
clear the first 200 buffer bytes, and run the receive loop. -/
def waitMsgT (clock : Nat → Nat) (avail : Nat → Option Nat) (time : Nat)
    (buf0 : Nat → Nat) (fuel : Nat) : Option ((Nat → Nat) × Nat × Nat × Bool) :=
  waitLoopT clock avail (clock 0) time fuel 0 (cleanBuffer buf0) 0

theorem writeBuf_same (buf : Nat → Nat) (j v : Nat) : writeBuf buf j v j = v := by
  simp [writeBuf]

theorem writeBuf_other (buf : Nat → Nat) (j v k : Nat) (h : k ≠ j) :
    writeBuf buf j v k = buf k := by
  simp [writeBuf, h]

theorem sumBytes_congr (f g : Nat → Nat) (lo n : Nat)
    (h : ∀ k, k < n → f (lo + k) = g (lo + k)) :
    sumBytes f lo n = sumBytes g lo n := by
  induction n with
  | zero => rfl
  | succ m ih =>
      simp only [sumBytes]
      rw [ih (fun k hk => h k (Nat.lt_succ_of_lt hk)), h m (Nat.lt_succ_self m)]

theorem consumed_eq_nil (s : List Nat) : consumed s = [] ↔ s = [] := by
  cases s with
  | nil => simp [consumed]
  | cons b rest =>
      simp only [consumed]
      by_cases hb : b = 0x7e <;> simp [hb]

theorem consumed_length_le (s : List Nat) : (consumed s).length ≤ s.length := by
  induction s with
  | nil => simp [consumed]
  | cons b rest ih =>
      simp only [consumed]
      by_cases hb : b = 0x7e
      · simp [hb]
      · simp only [hb, if_false, List.length_cons]
        omega

theorem consumed_getD_zero (s : List Nat) : (consumed s).getD 0 0 = s.getD 0 0 := by
  cases s with
  | nil => rfl
  | cons b rest =>
      simp only [consumed]
      by_cases hb : b = 0x7e <;> simp [hb]

theorem consumed_getLast_of_mem (s : List Nat) (h : 0x7e ∈ s) :
    (consumed s).getLast? = some 0x7e := by
  induction s with
  | nil => cases h
  | cons b rest ih =>
      simp only [consumed]
      by_cases hb : b = 0x7e
      · simp [hb]
      · have hr : 0x7e ∈ rest := by
          cases List.mem_cons.mp h with
          | inl h0 => exact absurd h0.symm hb
          | inr h0 => exact h0
        have hne : consumed rest ≠ [] := by
          intro h0
          rw [consumed_eq_nil] at h0
          subst h0
          cases hr
        simp [hb, List.getLast?_cons, ih hr, Option.or_of_isSome]

theorem recvLoop_cnt (s : List Nat) : ∀ (buf : Nat → Nat) (i : Nat),
    (recvLoop s buf i).cnt = i + (consumed s).length := by
  induction s with
  | nil => intro buf i; simp [recvLoop, consumed]
  | cons b rest ih =>
      intro buf i
      simp only [recvLoop, consumed]
      by_cases hb : b = 0x7e
      · simp [hb]
      · simp only [hb, if_false, ih]
        simp [List.length_cons]
        omega

/-- Where the receive loop leaves the buffer, provided the `uint8_t` index
never wraps (at most 256 bytes are consumed in total). -/
theorem recvLoop_buf (s : List Nat) : ∀ (buf : Nat → Nat) (i : Nat),
    i + (consumed s).length ≤ 256 →
    ∀ j, (recvLoop s buf i).buf j
      = if i ≤ j ∧ j < i + (consumed s).length then (consumed s).getD (j - i) 0
        else buf j := by
  induction s with
  | nil =>
      intro buf i h j
      simp only [recvLoop, consumed, List.length_nil]
      rw [if_neg (by omega)]
  | cons b rest ih =>
      intro buf i h j
      simp only [recvLoop, consumed] at *
      by_cases hb : b = 0x7e
      · simp only [hb, if_true] at *
        have hi : i % 256 = i := Nat.mod_eq_of_lt (by simp at h; omega)
        simp only [hi]
        by_cases hj : j = i
        · subst hj
          rw [writeBuf_same, if_pos (by simp only [List.length_cons, List.length_nil]; omega)]
          simp [Nat.sub_self]
        · rw [writeBuf_other _ _ _ _ hj, if_neg (by simp only [List.length_cons, List.length_nil]; omega)]
      · simp only [hb, if_false] at *
        have hlen : (consumed rest).length + 1 ≤ 256 - i := by
          simp [List.length_cons] at h; omega
        have hi : i % 256 = i := Nat.mod_eq_of_lt (by omega)
        rw [hi, ih (writeBuf buf (i) b) (i + 1) (by omega) j]
        by_cases hj1 : i + 1 ≤ j ∧ j < i + 1 + (consumed rest).length
        · rw [if_pos hj1, if_pos (by simp only [List.length_cons]; omega)]
          have hsub : j - i = (j - (i + 1)) + 1 := by omega
          rw [hsub, List.getD_cons_succ]
        · rw [if_neg hj1]
          by_cases hj : j = i
          · subst hj
            rw [writeBuf_same, if_pos (by simp only [List.length_cons]; omega)]
            simp [Nat.sub_self]
          · rw [writeBuf_other _ _ _ _ hj, if_neg (by simp only [List.length_cons]; omega)]

/-- `waitMsg` processes exactly the consumed prefix of the delivered stream. -/
theorem recvLoop_eq_consumed (s : List Nat) : ∀ (buf : Nat → Nat) (i : Nat),
    recvLoop s buf i = recvLoop (consumed s) buf i := by
  induction s with
  | nil => intro buf i; rfl
  | cons b rest ih =>
      intro buf i
      simp only [recvLoop, consumed]
      by_cases hb : b = 0x7e
      · simp [hb, recvLoop]
      · simp [hb, recvLoop, ih]

/-- Marker-check outcome of `waitMsg` on a stream whose consumed prefix ends
in the 0x7E terminator, for streams short enough that the `uint8_t` index
cannot wrap: the call succeeds exactly when the first delivered byte is
0xBB. -/
theorem waitMsg_ok_of_last7e (buf0 : Nat → Nat) (s : List Nat) (oob : Nat)
    (hne : s ≠ []) (hlen : s.length ≤ 255)
    (hlast : (consumed s).getLast? = some 0x7e) :
    (waitMsg buf0 s oob).ok = (s.getD 0 0 == 0xbb) := by
  have hcne : consumed s ≠ [] := fun h0 => hne ((consumed_eq_nil s).mp h0)
  have hn1 : 0 < (consumed s).length := List.length_pos.mpr hcne
  have hnle : (consumed s).length ≤ 255 := le_trans (consumed_length_le s) hlen
  have hbuf0 : (recvLoop s (cleanBuffer buf0) 0).buf 0 = s.getD 0 0 := by
    rw [recvLoop_buf s _ 0 (by omega) 0, if_pos (by omega)]
    simpa using consumed_getD_zero s
  have hbufl : (recvLoop s (cleanBuffer buf0) 0).buf ((consumed s).length - 1) = 0x7e := by
    rw [recvLoop_buf s _ 0 (by omega) _, if_pos (by omega)]
    simp only [Nat.sub_zero]
    rw [List.getD_eq_getElem?_getD, ← List.getLast?_eq_getElem?, hlast]
    rfl
  simp only [waitMsg, waitMsgCheck, recvLoop_cnt, Nat.zero_add]
  rw [Nat.mod_eq_of_lt (by omega), if_neg (by omega), hbuf0, hbufl]
  simp

/-- C8: the receive path performs no checksum verification: two received
frames that differ only in their checksum byte (the byte immediately before
the 0x7E terminator) produce the same `waitMsg` result, and every frame with
a leading 0xBB and trailing 0x7E is accepted whatever its checksum byte.
`pre` is the frame up to but excluding the checksum byte; the length bound
keeps the whole frame inside the 256-byte buffer without engaging the
out-of-bounds `buffer[i - 1]` read of the wrapped-index edge case. -/
theorem waitMsg_checksum_blind_c8 (buf0 : Nat → Nat) (pre : List Nat) (c1 c2 oob : Nat)
    (hne : pre ≠ []) (hlen : pre.length ≤ 253) :
    (waitMsg buf0 (pre ++ [c1, 0x7e]) oob).ok = (waitMsg buf0 (pre ++ [c2, 0x7e]) oob).ok ∧
    (pre.getD 0 0 = 0xbb → (waitMsg buf0 (pre ++ [c1, 0x7e]) oob).ok = true) := by
  have hpos : 0 < pre.length := List.length_pos.mpr hne
  have h1 : (waitMsg buf0 (pre ++ [c1, 0x7e]) oob).ok = (pre.getD 0 0 == 0xbb) := by
    rw [waitMsg_ok_of_last7e buf0 _ oob (by simp) (by simp; omega)
      (consumed_getLast_of_mem _ (by simp))]
    rw [List.getD_append _ _ _ _ hpos]
  have h2 : (waitMsg buf0 (pre ++ [c2, 0x7e]) oob).ok = (pre.getD 0 0 == 0xbb) := by
    rw [waitMsg_ok_of_last7e buf0 _ oob (by simp) (by simp; omega)
      (consumed_getLast_of_mem _ (by simp))]
    rw [List.getD_append _ _ _ _ hpos]
  refine ⟨h1.trans h2.symm, fun hh => ?_⟩
  rw [h1, hh]
  rfl

/-- Closed instantiation of `waitMsg_checksum_blind_c8`: a well-formed
24-byte inventory response is accepted both with checksum byte 0x00 and with
checksum byte 0xFF. -/
theorem waitMsg_checksum_blind_c8_witness :
    (waitMsg (fun _ => 0) ((0xbb :: List.replicate 21 0x11) ++ [0x00, 0x7e]) 0).ok
      = (waitMsg (fun _ => 0) ((0xbb :: List.replicate 21 0x11) ++ [0xff, 0x7e]) 0).ok ∧
    ((0xbb :: List.replicate 21 0x11).getD 0 0 = 0xbb →
      (waitMsg (fun _ => 0) ((0xbb :: List.replicate 21 0x11) ++ [0x00, 0x7e]) 0).ok = true) :=
  waitMsg_checksum_blind_c8 (fun _ => 0) (0xbb :: List.replicate 21 0x11) 0x00 0xff 0
    (by simp) (by simp)

/-- C1 (amended): for delivered byte streams of at most 255 bytes — so the
`uint8_t` buffer index cannot wrap — `waitMsg` returns true only when
`buffer[0]` is 0xBB and the last byte read is 0x7E, and every such stream
lacking a leading 0xBB is rejected whatever else it contains.  Streams of
257 or more bytes can wrap the 8-bit index and defeat the leading-marker
guarantee (see `waitMsg_wrap_cex_c1`). -/
theorem waitMsg_markers_c1 (buf0 : Nat → Nat) (stream : List Nat) (oob : Nat)
    (hlen : stream.length ≤ 255) :
    ((waitMsg buf0 stream oob).ok = true →
      (waitMsg buf0 stream oob).buf 0 = 0xbb ∧ (consumed stream).getLast? = some 0x7e) ∧
    (stream.getD 0 0 ≠ 0xbb → (waitMsg buf0 stream oob).ok = false) := by
  cases stream with
  | nil =>
      have hok : (waitMsg buf0 [] oob).ok = false := by
        simp [waitMsg, recvLoop, waitMsgCheck, cleanBuffer]
      constructor
      · intro h
        rw [hok] at h
        cases h
      · intro _
        exact hok
  | cons b rest =>
      have hne : (b :: rest : List Nat) ≠ [] := by simp
      have hcne : consumed (b :: rest) ≠ [] :=
        fun h0 => hne ((consumed_eq_nil _).mp h0)
      have hn1 : 0 < (consumed (b :: rest)).length := List.length_pos.mpr hcne
      have hnle : (consumed (b :: rest)).length ≤ 255 :=
        le_trans (consumed_length_le _) hlen
      have hbuf0 : (recvLoop (b :: rest) (cleanBuffer buf0) 0).buf 0 = b := by
        rw [recvLoop_buf _ _ 0 (by omega) 0, if_pos (by omega)]
        simpa using consumed_getD_zero (b :: rest)
      constructor
      · intro hok
        simp only [waitMsg, waitMsgCheck, recvLoop_cnt, Nat.zero_add] at hok ⊢
        rw [Nat.mod_eq_of_lt (by omega), if_neg (by omega)] at hok
        have hparts := Bool.and_eq_true_iff.mp hok
        have hb0 : (recvLoop (b :: rest) (cleanBuffer buf0) 0).buf 0 = 0xbb := by
          simpa using hparts.1
        have hbl : (recvLoop (b :: rest) (cleanBuffer buf0) 0).buf
            ((consumed (b :: rest)).length - 1) = 0x7e := by
          simpa using hparts.2
        rw [recvLoop_buf _ _ 0 (by omega) _, if_pos (by omega)] at hbl
        simp only [Nat.sub_zero] at hbl
        rw [List.getD_eq_getElem?_getD, List.getElem?_eq_getElem (by omega)] at hbl
        refine ⟨hb0, ?_⟩
        rw [List.getLast?_eq_getElem?, List.getElem?_eq_getElem (by omega)]
        simpa using hbl
      · intro hhead
        simp only [List.getD_cons_zero] at hhead
        simp only [waitMsg, waitMsgCheck]
        rw [hbuf0]
        have : (b == 0xbb) = false := by
          simpa using hhead
        rw [this]
        rfl

/-- Closed instantiation of `waitMsg_markers_c1`: the minimal valid frame
`BB 7E` is accepted with the right markers, and the stream `00 7E` is
rejected. -/
theorem waitMsg_markers_c1_witness :
    ((waitMsg (fun _ => 0) [0xbb, 0x7e] 0).ok = true →
      (waitMsg (fun _ => 0) [0xbb, 0x7e] 0).buf 0 = 0xbb ∧
      (consumed [0xbb, 0x7e]).getLast? = some 0x7e) ∧
    (([0xbb, 0x7e] : List Nat).getD 0 0 ≠ 0xbb →
      (waitMsg (fun _ => 0) [0xbb, 0x7e] 0).ok = false) :=
  waitMsg_markers_c1 (fun _ => 0) [0xbb, 0x7e] 0 (by decide)

set_option maxRecDepth 10000 in
/-- C1 counterexample: a 258-byte stream whose first byte is 0x00 (no leading
0xBB anywhere in its first 256 bytes) is nevertheless accepted: the
`uint8_t` buffer index wraps after 256 stored bytes, the 257th byte 0xBB
lands in `buffer[0]`, the 258th byte 0x7E terminates the loop, and the
marker check passes, so `waitMsg` returns true. -/
theorem waitMsg_wrap_cex_c1 :
    (waitMsg (fun _ => 0) (List.replicate 256 0 ++ [0xbb, 0x7e]) 0).ok = true ∧
    (List.replicate 256 0 ++ [0xbb, 0x7e]).getD 0 0 ≠ 0xbb := by
  constructor
  · rfl
  · decide

/-- C9: `cleanBuffer`, invoked at the start of every `waitMsg` call, zeroes
only the first 200 bytes of the 256-byte shared frame buffer; bytes at
indices 200 and beyond are left unchanged, and when an exchange delivers at
most 200 bytes those indices still hold their previous contents after
`waitMsg` returns. -/
theorem cleanBuffer_partial_c9 (buf0 : Nat → Nat) (j : Nat) (stream : List Nat) (oob : Nat)
    (hj : 200 ≤ j) (hs : stream.length ≤ 200) :
    (∀ k, k < 200 → cleanBuffer buf0 k = 0) ∧
    cleanBuffer buf0 j = buf0 j ∧
    (waitMsg buf0 stream oob).buf j = buf0 j := by
  have hclean : cleanBuffer buf0 j = buf0 j := by
    simp only [cleanBuffer]
    rw [if_neg (by omega)]
  refine ⟨fun k hk => by simp [cleanBuffer, hk], hclean, ?_⟩
  have hn : (consumed stream).length ≤ 200 := le_trans (consumed_length_le _) hs
  simp only [waitMsg]
  rw [recvLoop_buf _ _ 0 (by omega) j, if_neg (by omega)]
  exact hclean

/-- Closed instantiation of `cleanBuffer_partial_c9` at index 200 with a
2-byte exchange over a buffer previously holding `k + 1` at index `k`. -/
theorem cleanBuffer_partial_c9_witness :
    (∀ k, k < 200 → cleanBuffer (fun k => k + 1) k = 0) ∧
    cleanBuffer (fun k => k + 1) 200 = (fun k => k + 1) 200 ∧
    (waitMsg (fun k => k + 1) [0xbb, 0x7e] 0).buf 200 = (fun k => k + 1) 200 :=
  cleanBuffer_partial_c9 (fun k => k + 1) 200 [0xbb, 0x7e] 0 (by decide) (by decide)

/-- C5: calling `setTxPower` with the value 2600 builds a command frame in
which `buffer[5] = 0x0A` and `buffer[6] = 0x28` (2600 = 0x0A28), and whose
checksum byte at `buffer[7]` equals the 8-bit sum of buffer bytes 1 through 6
inclusive. -/
theorem setTxPower_frame_c5 (tmpl : List Nat) (buf0 : Nat → Nat) :
    setTxPowerFrame tmpl buf0 2600 5 = 0x0a ∧
    setTxPowerFrame tmpl buf0 2600 6 = 0x28 ∧
    setTxPowerFrame tmpl buf0 2600 7 =
      sumBytes (setTxPowerFrame tmpl buf0 2600) 1 6 % 256 := by
  have hcong : sumBytes (setTxPowerFrame tmpl buf0 2600) 1 6
      = sumBytes (writeBuf (writeBuf (memcpyBuf buf0 tmpl) 5 ((2600 >>> 8) % 256))
          6 (2600 % 256)) 1 6 := by
    apply sumBytes_congr
    intro k hk
    simp only [setTxPowerFrame]
    rw [writeBuf_other]
    omega
  refine ⟨?_, ?_, ?_⟩
  · simp [setTxPowerFrame, writeBuf]
  · simp [setTxPowerFrame, writeBuf]
  · rw [hcong]
    simp only [setTxPowerFrame]
    rw [writeBuf_same]

/-- C2 counterexample: with an empty response stream (the module timed out and
answered nothing), `setRegion` still returns `true`, refuting the claim that
any timeout during the exchange yields a `false` result. -/
theorem setRegion_counterexample_c2 : (setRegion 0x02 []).1 = true := rfl

/-- C2 (amended): `setRegion` builds the 8-byte region frame with checksum
`(8 + regionCode) % 256` over bytes 1..5 stored at index 6, sends it, drains
and discards any response bytes, and returns `true` unconditionally — it
performs no acknowledgment validation at all, so neither a timeout nor a
marker mismatch can make it return `false`. -/
theorem setRegion_unconditional_c2 (regionCode : Nat) (response : List Nat) :
    setRegion regionCode response
      = (true, [0xbb, 0x00, 0x07, 0x00, 0x01, regionCode % 256,
                (8 + regionCode % 256) % 256, 0x7e]) := by
  simp [setRegion, setRegionCmd, checksumList, List.set]
  omega

theorem saveCardInfo_length (buf : Nat → Nat) (cards : List CARD) (slot : Nat) :
    ((saveCardInfo buf cards slot).2).length = cards.length := by
  simp only [saveCardInfo]
  by_cases h : filterCardInfo cards (epcStringOf buf)
  · simp [h, List.length_set]
  · simp [h]

theorem pollLoop_capacity (oob : Nat) (exchanges : List (List Nat)) :
    ∀ (buf : Nat → Nat) (cards : List CARD) (count : Nat),
    count ≤ 200 → cards.length = 200 →
    (pollLoop oob exchanges buf cards count).1 ≤ 200 ∧
    (pollLoop oob exchanges buf cards count).2.length = 200 := by
  induction exchanges with
  | nil =>
      intro buf cards count h1 h2
      exact ⟨h1, h2⟩
  | cons s rest ih =>
      intro buf cards count h1 h2
      simp only [pollLoop]
      by_cases hok : (waitMsg buf s oob).ok
      · simp only [hok, if_true]
        by_cases hframe : ((waitMsg buf s oob).buf 23 == 0x7e)
        · simp only [hframe, if_true]
          by_cases hcount : count < 200
          · simp only [hcount, if_true]
            refine ih _ _ _ ?_ ?_
            · by_cases hsaved : (saveCardInfo (waitMsg buf s oob).buf cards count).1
              · simp [hsaved]; omega
              · simp [hsaved]; omega
            · rw [saveCardInfo_length]
              exact h2
          · simp [hcount, h2]
        · simp only [Bool.not_eq_true] at hframe
          simp only [hframe, Bool.false_eq_true, if_false]
          exact ih _ _ _ h1 h2
      · simp only [Bool.not_eq_true] at hok
        simp only [hok, Bool.false_eq_true, if_false]
        exact ⟨h1, h2⟩

/-- C3: for every sequence of inventory response frames, `pollingOnce` and
`pollingMultiple` never store a tag record at a slot index of 200 or beyond
(the registry keeps exactly its 200 slots; every store targets slot
`count < 200`) and never return a count greater than 200; and once the
registry holds 200 records, the next valid frame makes the loop stop at once
— ignoring the rest of the input and inserting nothing — reporting the
capacity count 200. -/
theorem polling_capacity_c3 (exchanges : List (List Nat)) (oob pcount : Nat)
    (tmpl : List Nat) (buf0 buf : Nat → Nat) (s : List Nat) (rest : List (List Nat))
    (cards : List CARD)
    (hok : (waitMsg buf s oob).ok = true)
    (hframe : (waitMsg buf s oob).buf 23 = 0x7e) :
    (pollingOnce exchanges oob buf0).1 ≤ 200 ∧
    (pollingOnce exchanges oob buf0).2.length = 200 ∧
    (pollingMultiple tmpl pcount exchanges oob buf0).1 ≤ 200 ∧
    (pollingMultiple tmpl pcount exchanges oob buf0).2.length = 200 ∧
    pollLoop oob (s :: rest) buf cards 200 = (200, cards) := by
  have hclean : cleanCardsBuffer.length = 200 := by
    unfold cleanCardsBuffer
    rw [List.length_replicate]
  have h1 := pollLoop_capacity oob exchanges buf0 cleanCardsBuffer 0 (by omega) hclean
  have h2 := pollLoop_capacity oob exchanges
    (writeBuf (writeBuf (writeBuf (memcpyBuf buf0 tmpl) 6 ((pcount >>> 8) % 256)) 7
        (pcount % 256)) 8
      (sumBytes (writeBuf (writeBuf (memcpyBuf buf0 tmpl) 6 ((pcount >>> 8) % 256)) 7
        (pcount % 256)) 1 7 % 256))
    cleanCardsBuffer 0 (by omega) hclean
  refine ⟨h1.1, h1.2, h2.1, h2.2, ?_⟩
  simp only [pollLoop, hok, if_true]
  rw [hframe]
  rfl

/-- Closed instantiation of `polling_capacity_c3`: empty exchange list, a
well-formed 24-byte single-tag response frame, and the full clean
registry. -/
theorem polling_capacity_c3_witness :
    (pollingOnce [] 0 (fun _ => 0)).1 ≤ 200 ∧
    (pollingOnce [] 0 (fun _ => 0)).2.length = 200 ∧
    (pollingMultiple [] 0 [] 0 (fun _ => 0)).1 ≤ 200 ∧
    (pollingMultiple [] 0 [] 0 (fun _ => 0)).2.length = 200 ∧
    pollLoop 0 ((0xbb :: (List.replicate 22 0x11 ++ [0x7e])) :: []) (fun _ => 0)
      cleanCardsBuffer 200 = (200, cleanCardsBuffer) :=
  polling_capacity_c3 [] 0 0 [] (fun _ => 0) (fun _ => 0)
    (0xbb :: (List.replicate 22 0x11 ++ [0x7e])) [] cleanCardsBuffer
    (by rfl) (by rfl)

theorem filterCardInfo_iff (cards : List CARD) (epc : String) :
    filterCardInfo cards epc = true ↔ ∀ c ∈ cards, c.epc_str ≠ epc := by
  simp only [filterCardInfo, Bool.not_eq_true', List.any_eq_false, beq_iff_eq]
  constructor
  · intro h c hc he
    exact h c hc he.symm
  · intro h c hc he
    exact h c hc he.symm

/-- C4: `saveCardInfo` returns true and stores the record at the given slot
precisely when no registry slot already holds the same EPC string, and
returns false — storing nothing — otherwise; consequently two inventory
responses with identical EPC bytes (`buffer[8..19]`) but different RSSI
leave exactly one stored record, the first. -/
theorem saveCardInfo_dedup_c4 (buf buf2 : Nat → Nat) (cards : List CARD) (slot slot2 : Nat)
    (hslot : slot < cards.length)
    (hepc : ∀ k, 8 ≤ k → k < 20 → buf2 k = buf k) :
    ((saveCardInfo buf cards slot).1 = true ↔ ∀ c ∈ cards, c.epc_str ≠ epcStringOf buf) ∧
    ((saveCardInfo buf cards slot).1 = false → (saveCardInfo buf cards slot).2 = cards) ∧
    ((saveCardInfo buf cards slot).1 = true →
      (saveCardInfo buf cards slot).2 = cards.set slot (cardOf buf)) ∧
    ((saveCardInfo buf cards slot).1 = true →
      (saveCardInfo buf2 (saveCardInfo buf cards slot).2 slot2).1 = false ∧
      (saveCardInfo buf2 (saveCardInfo buf cards slot).2 slot2).2
        = cards.set slot (cardOf buf)) := by
  have hestr : epcStringOf buf2 = epcStringOf buf := by
    simp only [epcStringOf]
    rw [hepc 8 (by omega) (by omega), hepc 9 (by omega) (by omega),
        hepc 10 (by omega) (by omega), hepc 11 (by omega) (by omega),
        hepc 12 (by omega) (by omega), hepc 13 (by omega) (by omega),
        hepc 14 (by omega) (by omega), hepc 15 (by omega) (by omega),
        hepc 16 (by omega) (by omega), hepc 17 (by omega) (by omega),
        hepc 18 (by omega) (by omega), hepc 19 (by omega) (by omega)]
  have hA : (saveCardInfo buf cards slot).1 = true
      ↔ filterCardInfo cards (epcStringOf buf) = true := by
    simp only [saveCardInfo]
    by_cases hf : filterCardInfo cards (epcStringOf buf)
    · simp [hf]
    · simp [hf]
  have hB : (saveCardInfo buf cards slot).1 = false
      → (saveCardInfo buf cards slot).2 = cards := by
    intro hfalse
    simp only [saveCardInfo] at hfalse ⊢
    by_cases hf : filterCardInfo cards (epcStringOf buf)
    · simp [hf] at hfalse
    · simp [hf]
  have hC : (saveCardInfo buf cards slot).1 = true
      → (saveCardInfo buf cards slot).2 = cards.set slot (cardOf buf) := by
    intro htrue
    simp only [saveCardInfo] at htrue ⊢
    by_cases hf : filterCardInfo cards (epcStringOf buf)
    · simp [hf]
    · simp [hf] at htrue
  refine ⟨hA.trans (filterCardInfo_iff cards (epcStringOf buf)), hB, hC, fun htrue => ?_⟩
  have hmem : cardOf buf ∈ cards.set slot (cardOf buf) := by
    have h2 : slot < (cards.set slot (cardOf buf)).length := by
      rw [List.length_set]
      exact hslot
    have h3 := List.getElem_mem h2
    rwa [List.getElem_set_self h2] at h3
  have hfilter2 : filterCardInfo (cards.set slot (cardOf buf)) (epcStringOf buf2) = false := by
    rw [hestr]
    simp only [filterCardInfo, Bool.not_eq_false', List.any_eq_true]
    exact ⟨cardOf buf, hmem, by simp [cardOf]⟩
  rw [hC htrue]
  constructor
  · simp [saveCardInfo, hfilter2]
  · simp [saveCardInfo, hfilter2]

/-- Closed instantiation of `saveCardInfo_dedup_c4`: a fresh tag whose EPC
bytes are all 0x11 is inserted into the clean registry at slot 0; a second
response with the same EPC bytes but a different RSSI byte (0x22 at
`buffer[5]`) is rejected and changes nothing. -/
theorem saveCardInfo_dedup_c4_witness :
    ((saveCardInfo (fun _ => 0x11) cleanCardsBuffer 0).1 = true ↔
      ∀ c ∈ cleanCardsBuffer, c.epc_str ≠ epcStringOf (fun _ => 0x11)) ∧
    ((saveCardInfo (fun _ => 0x11) cleanCardsBuffer 0).1 = false →
      (saveCardInfo (fun _ => 0x11) cleanCardsBuffer 0).2 = cleanCardsBuffer) ∧
    ((saveCardInfo (fun _ => 0x11) cleanCardsBuffer 0).1 = true →
      (saveCardInfo (fun _ => 0x11) cleanCardsBuffer 0).2
        = cleanCardsBuffer.set 0 (cardOf (fun _ => 0x11))) ∧
    ((saveCardInfo (fun _ => 0x11) cleanCardsBuffer 0).1 = true →
      (saveCardInfo (fun k => if k = 5 then 0x22 else 0x11)
        (saveCardInfo (fun _ => 0x11) cleanCardsBuffer 0).2 1).1 = false ∧
      (saveCardInfo (fun k => if k = 5 then 0x22 else 0x11)
        (saveCardInfo (fun _ => 0x11) cleanCardsBuffer 0).2 1).2
        = cleanCardsBuffer.set 0 (cardOf (fun _ => 0x11))) :=
  saveCardInfo_dedup_c4 (fun _ => 0x11) (fun k => if k = 5 then 0x22 else 0x11)
    cleanCardsBuffer 0 1 (by unfold cleanCardsBuffer; rw [List.length_replicate]; omega)
    (fun k h8 _ => by
      show (if k = 5 then 0x22 else 0x11) = 0x11
      rw [if_neg (by omega)])

theorem writeData_lt (data : List Nat) : ∀ (buf : Nat → Nat) (start j : Nat),
    j < start → writeData buf start data j = buf j := by
  induction data with
  | nil => intro buf start j _; rfl
  | cons d rest ih =>
      intro buf start j hj
      simp only [writeData]
      rw [ih _ _ _ (by omega), writeBuf_other _ _ _ _ (by omega)]

theorem writeData_ge (data : List Nat) : ∀ (buf : Nat → Nat) (start j : Nat),
    start + data.length ≤ j → writeData buf start data j = buf j := by
  induction data with
  | nil => intro buf start j _; rfl
  | cons d rest ih =>
      intro buf start j hj
      simp only [writeData]
      simp only [List.length_cons] at hj
      rw [ih _ _ _ (by omega), writeBuf_other _ _ _ _ (by omega)]

theorem writeData_at (data : List Nat) : ∀ (buf : Nat → Nat) (start k : Nat),
    k < data.length → writeData buf start data (start + k) = data.getD k 0 := by
  induction data with
  | nil => intro buf start k hk; cases hk
  | cons d rest ih =>
      intro buf start k hk
      simp only [writeData]
      cases k with
      | zero =>
          rw [writeData_lt rest _ _ _ (by omega)]
          have h0 : start + 0 = start := by omega
          rw [h0, writeBuf_same]
          rfl
      | succ m =>
          simp only [List.length_cons] at hk
          have : start + (m + 1) = (start + 1) + m := by omega
          rw [this, ih _ _ _ (by omega)]
          rfl

/-- The checksum byte of a frame finished with `buffer[off] = check & 0xff;
buffer[off + 1] = 0x7e;` equals the 8-bit sum of bytes 1..off-1 of the
finished buffer: neither the checksum slot nor the terminator slot is part
of the summed range. -/
theorem checksum_slot (g : Nat → Nat) (off : Nat) (hoff1 : 1 ≤ off) :
    writeBuf (writeBuf g off (sumBytes g 1 (off - 1) % 256)) (off + 1) 0x7e off
      = sumBytes (writeBuf (writeBuf g off (sumBytes g 1 (off - 1) % 256)) (off + 1) 0x7e)
          1 (off - 1) % 256 := by
  have hcong : sumBytes (writeBuf (writeBuf g off (sumBytes g 1 (off - 1) % 256))
      (off + 1) 0x7e) 1 (off - 1) = sumBytes g 1 (off - 1) := by
    apply sumBytes_congr
    intro k hk
    rw [writeBuf_other _ _ _ _ (by omega), writeBuf_other _ _ _ _ (by omega)]
  rw [hcong, writeBuf_other _ _ _ _ (by omega), writeBuf_same]

/-- C6: for every payload that fits the 256-byte frame buffer, `writeCard`
embeds the word count `size / 2` as a big-endian 16-bit value at
`buffer[12..13]`, copies the payload to `buffer[14..]`, stores at the byte
immediately after the last data byte a checksum equal to the 8-bit sum of
the bytes from Type (index 1) through the last data byte inclusive, and the
0x7E terminator right after it.  (`size / 2 ≤ 120 < 256` here, so the
`uint8_t` truncation of the C word count is exact and its high byte is 0.) -/
theorem writeCard_frame_c6 (tmpl : List Nat) (buf0 : Nat → Nat) (data : List Nat)
    (membank sa pw : Nat) (hsize : data.length ≤ 240) :
    (writeCardFrame tmpl buf0 data membank sa pw).2 = 14 + data.length ∧
    (writeCardFrame tmpl buf0 data membank sa pw).1 12 = (data.length / 2) / 256 ∧
    (writeCardFrame tmpl buf0 data membank sa pw).1 13 = (data.length / 2) % 256 ∧
    (∀ k, k < data.length →
      (writeCardFrame tmpl buf0 data membank sa pw).1 (14 + k) = data.getD k 0) ∧
    (writeCardFrame tmpl buf0 data membank sa pw).1 (14 + data.length)
      = sumBytes (writeCardFrame tmpl buf0 data membank sa pw).1 1 (13 + data.length) % 256 ∧
    (writeCardFrame tmpl buf0 data membank sa pw).1 (15 + data.length) = 0x7e := by
  have hoff : (14 + data.length) % 256 = 14 + data.length := Nat.mod_eq_of_lt (by omega)
  have hword : data.length / 2 < 256 := by omega
  simp only [writeCardFrame, hoff]
  refine ⟨by trivial, ?_, ?_, ?_, ?_, ?_⟩
  · rw [writeBuf_other _ _ _ _ (by omega), writeBuf_other _ _ _ _ (by omega),
        writeData_lt _ _ _ _ (by omega), writeBuf_other _ _ _ _ (by omega),
        writeBuf_same, Nat.mod_eq_of_lt hword, Nat.shiftRight_eq_div_pow]
    omega
  · rw [writeBuf_other _ _ _ _ (by omega), writeBuf_other _ _ _ _ (by omega),
        writeData_lt _ _ _ _ (by omega), writeBuf_same, Nat.mod_eq_of_lt hword]
    omega
  · intro k hk
    rw [writeBuf_other _ _ _ _ (by omega), writeBuf_other _ _ _ _ (by omega)]
    exact writeData_at data _ 14 k hk
  · have h13 : 13 + data.length = 14 + data.length - 1 := by omega
    rw [h13]
    exact checksum_slot _ _ (by omega)
  · have h15 : 15 + data.length = (14 + data.length) + 1 := by omega
    rw [h15, writeBuf_same]

/-- Closed instantiation of `writeCard_frame_c6` with a 4-byte payload
`[1, 2, 3, 4]`: word count 2 at bytes 12..13, checksum at byte 18,
terminator at byte 19. -/
theorem writeCard_frame_c6_witness :
    (writeCardFrame [] (fun _ => 0) [1, 2, 3, 4] 3 0 0).2 = 14 + 4 ∧
    (writeCardFrame [] (fun _ => 0) [1, 2, 3, 4] 3 0 0).1 12 = (4 / 2) / 256 ∧
    (writeCardFrame [] (fun _ => 0) [1, 2, 3, 4] 3 0 0).1 13 = (4 / 2) % 256 ∧
    (∀ k, k < 4 →
      (writeCardFrame [] (fun _ => 0) [1, 2, 3, 4] 3 0 0).1 (14 + k)
        = ([1, 2, 3, 4] : List Nat).getD k 0) ∧
    (writeCardFrame [] (fun _ => 0) [1, 2, 3, 4] 3 0 0).1 (14 + 4)
      = sumBytes (writeCardFrame [] (fun _ => 0) [1, 2, 3, 4] 3 0 0).1 1 (13 + 4) % 256 ∧
    (writeCardFrame [] (fun _ => 0) [1, 2, 3, 4] 3 0 0).1 (15 + 4) = 0x7e :=
  writeCard_frame_c6 [] (fun _ => 0) [1, 2, 3, 4] 3 0 0 (by decide)

/-- C10: `readCard` leaves the caller-supplied output buffer unchanged
whenever it returns false — that is, on a receive timeout or marker mismatch
(`waitMsg` failed) and on a response whose error echo at index 2 matches the
read-error signature — and only on success replaces it with the `size` bytes
at response offset 20.  The size bound is the regime where the C copy loop
(`uint8_t i; i < size`) terminates. -/
theorem readCard_output_c10 (errSig : Nat) (tmpl : List Nat) (buf0 : Nat → Nat)
    (stream : List Nat) (oob : Nat) (data : List Nat) (size membank sa pw : Nat)
    (_hsize : size ≤ 255) :
    ((readCard errSig tmpl buf0 stream oob data size membank sa pw).1 = false →
      (readCard errSig tmpl buf0 stream oob data size membank sa pw).2 = data) ∧
    ((waitMsg (readCardCmd tmpl buf0 size membank pw) stream oob).ok = false →
      (readCard errSig tmpl buf0 stream oob data size membank sa pw).1 = false) ∧
    ((waitMsg (readCardCmd tmpl buf0 size membank pw) stream oob).ok = true →
      errSig = (waitMsg (readCardCmd tmpl buf0 size membank pw) stream oob).buf 2 →
      (readCard errSig tmpl buf0 stream oob data size membank sa pw).1 = false) ∧
    ((readCard errSig tmpl buf0 stream oob data size membank sa pw).1 = true →
      (readCard errSig tmpl buf0 stream oob data size membank sa pw).2
        = (List.range size).map
            fun k => (waitMsg (readCardCmd tmpl buf0 size membank pw) stream oob).buf (20 + k)) := by
  by_cases hok : (waitMsg (readCardCmd tmpl buf0 size membank pw) stream oob).ok
  · by_cases herr : errSig == (waitMsg (readCardCmd tmpl buf0 size membank pw) stream oob).buf 2
    · refine ⟨fun _ => ?_, fun hfail => ?_, fun _ _ => ?_, fun htrue => ?_⟩
      · simp [readCard, hok, herr]
      · rw [hok] at hfail
        cases hfail
      · simp [readCard, hok, herr]
      · simp [readCard, hok, herr] at htrue
    · refine ⟨fun hfalse => ?_, fun hfail => ?_, fun _ heq => ?_, fun _ => ?_⟩
      · simp [readCard, hok, herr] at hfalse
      · rw [hok] at hfail
        cases hfail
      · rw [heq] at herr
        simp at herr
      · simp [readCard, hok, herr]
  · simp only [Bool.not_eq_true] at hok
    refine ⟨fun _ => ?_, fun _ => ?_, fun hk => ?_, fun htrue => ?_⟩
    · simp [readCard, hok]
    · simp [readCard, hok]
    · rw [hok] at hk
      cases hk
    · simp [readCard, hok] at htrue

/-- Closed instantiation of `readCard_output_c10`: an empty response stream
(a timeout) makes `readCard` return false and leave the 2-byte output buffer
`[1, 2]` untouched. -/
theorem readCard_output_c10_witness :
    ((readCard 0xff [] (fun _ => 0) [] 0 [1, 2] 2 3 0 0).1 = false →
      (readCard 0xff [] (fun _ => 0) [] 0 [1, 2] 2 3 0 0).2 = [1, 2]) ∧
    ((waitMsg (readCardCmd [] (fun _ => 0) 2 3 0) [] 0).ok = false →
      (readCard 0xff [] (fun _ => 0) [] 0 [1, 2] 2 3 0 0).1 = false) ∧
    ((waitMsg (readCardCmd [] (fun _ => 0) 2 3 0) [] 0).ok = true →
      0xff = (waitMsg (readCardCmd [] (fun _ => 0) 2 3 0) [] 0).buf 2 →
      (readCard 0xff [] (fun _ => 0) [] 0 [1, 2] 2 3 0 0).1 = false) ∧
    ((readCard 0xff [] (fun _ => 0) [] 0 [1, 2] 2 3 0 0).1 = true →
      (readCard 0xff [] (fun _ => 0) [] 0 [1, 2] 2 3 0 0).2
        = (List.range 2).map
            fun k => (waitMsg (readCardCmd [] (fun _ => 0) 2 3 0) [] 0).buf (20 + k)) :=
  readCard_output_c10 0xff [] (fun _ => 0) [] 0 [1, 2] 2 3 0 0 (by decide)

theorem waitLoopT_timeout (clock : Nat → Nat) (avail : Nat → Option Nat)
    (time N T : Nat)
    (hN : N ≤ 255)
    (havail : ∀ k, N ≤ k → avail k = none)
    (hno7e : ∀ k b, avail k = some b → b ≠ 0x7e)
    (hmono : ∀ j k, j ≤ k → clock j ≤ clock k)
    (hT : clock 0 + time ≤ clock T) :
    ∀ fuel k (buf : Nat → Nat) (i : Nat), 0 < fuel → max N T < k + fuel →
    i ≤ k → i ≤ N → (i = 0 → buf 0 = 0) → (1 ≤ i → buf (i - 1) ≠ 0x7e) →
    ∃ bufF iF kF, waitLoopT clock avail (clock 0) time fuel k buf i
        = some (bufF, iF, kF, false) ∧
      time ≤ clock kF - clock 0 ∧
      (∀ oob, waitMsgCheck bufF iF oob = false) ∧
      (∀ q, k ≤ q → q < kF → avail q ≠ none ∨ clock q - clock 0 < time) := by
  intro fuel
  induction fuel with
  | zero =>
      intro k buf i hfuel _ _ _ _ _
      cases hfuel
  | succ f ih =>
      intro k buf i _ hbound hik hiN hbuf0 hbufl
      have hNT : N ≤ max N T := Nat.le_max_left N T
      have hTT : T ≤ max N T := Nat.le_max_right N T
      cases hav : avail k with
      | some b =>
          have hkN : k < N := by
            by_contra hge
            rw [havail k (by omega)] at hav
            cases hav
          have hb7 : b ≠ 0x7e := hno7e k b hav
          simp only [waitLoopT, hav]
          rw [if_neg hb7]
          have himod : i % 256 = i := Nat.mod_eq_of_lt (by omega)
          obtain ⟨bufF, iF, kF, hrun, htime, hcheck, hq⟩ :=
            ih (k + 1) (writeBuf buf (i % 256) b) (i + 1) (by omega) (by omega)
              (by omega) (by omega) (fun h => absurd h (by omega))
              (fun _ => by
                have : i + 1 - 1 = i := by omega
                rw [this, himod, writeBuf_same]
                exact hb7)
          refine ⟨bufF, iF, kF, hrun, htime, hcheck, fun q hq1 hq2 => ?_⟩
          by_cases hqk : q = k
          · subst hqk
            exact Or.inl (by rw [hav]; exact fun h => Option.noConfusion h)
          · exact hq q (by omega) hq2
      | none =>
          simp only [waitLoopT, hav]
          by_cases htimeout : clock k - clock 0 < time
          · rw [if_pos htimeout]
            have hkT : k < T := by
              by_contra hge
              have : clock T ≤ clock k := hmono T k (by omega)
              omega
            obtain ⟨bufF, iF, kF, hrun, htime, hcheck, hq⟩ :=
              ih (k + 1) buf i (by omega) (by omega) (by omega) hiN hbuf0 hbufl
            refine ⟨bufF, iF, kF, hrun, htime, hcheck, fun q hq1 hq2 => ?_⟩
            by_cases hqk : q = k
            · subst hqk
              exact Or.inr htimeout
            · exact hq q (by omega) hq2
          · rw [if_neg htimeout]
            refine ⟨buf, i, k, rfl, by omega, fun oob => ?_, fun q hq1 hq2 => by omega⟩
            have himod : i % 256 = i := Nat.mod_eq_of_lt (by omega)
            simp only [waitMsgCheck, himod]
            cases hi : i with
            | zero =>
                rw [hbuf0 hi]
                rfl
            | succ m =>
                rw [if_neg (by omega)]
                have hne : buf (i - 1) ≠ 0x7e := hbufl (by omega)
                have : (buf (m + 1 - 1) == 0x7e) = false := by
                  rw [← hi]
                  simpa using hne
                rw [this, Bool.and_false]

/-- C7: against a transport that never delivers a byte — in particular never
a 0x7E terminator — and a monotone clock that eventually passes the
deadline, the clocked `waitMsg` terminates without the 0x7E break, reports
failure, and does so only once the elapsed time has reached the configured
timeout: at every earlier iteration the loop kept running because data was
pending or time remained, and at the exit iteration the elapsed time is at
least `time`.  The driver's default timeout is 500 time units.  `N` bounds
the iterations that still see pending data (`N ≤ 255` keeps the final
`buffer[i - 1]` read of the C code in bounds). -/
theorem waitMsg_timeout_c7 (clock : Nat → Nat) (avail : Nat → Option Nat)
    (buf0 : Nat → Nat) (time N T : Nat)
    (hN : N ≤ 255)
    (havail : ∀ k, N ≤ k → avail k = none)
    (hno7e : ∀ k b, avail k = some b → b ≠ 0x7e)
    (hmono : ∀ j k, j ≤ k → clock j ≤ clock k)
    (hT : clock 0 + time ≤ clock T) :
    (∃ bufF iF kF, waitMsgT clock avail time buf0 (max N T + 1) = some (bufF, iF, kF, false) ∧
      time ≤ clock kF - clock 0 ∧
      (∀ oob, waitMsgCheck bufF iF oob = false) ∧
      (∀ q, q < kF → avail q ≠ none ∨ clock q - clock 0 < time)) ∧
    waitMsgDefaultTimeout = 500 := by
  obtain ⟨bufF, iF, kF, hrun, htime, hcheck, hq⟩ :=
    waitLoopT_timeout clock avail time N T hN havail hno7e hmono hT
      (max N T + 1) 0 (cleanBuffer buf0) 0 (by omega) (by omega) (by omega) (by omega)
      (fun _ => by simp [cleanBuffer]) (fun h => absurd h (by omega))
  exact ⟨⟨bufF, iF, kF, hrun, htime, hcheck, fun q hq2 => hq q (by omega) hq2⟩, rfl⟩

/-- Closed instantiation of `waitMsg_timeout_c7`: identity clock, a
transport with no data at all, and the default 500-unit timeout; the loop
exits by deadline with a failure result. -/
theorem waitMsg_timeout_c7_witness :
    (∃ bufF iF kF,
      waitMsgT (fun k => k) (fun _ => none) 500 (fun _ => 0) (max 0 500 + 1)
        = some (bufF, iF, kF, false) ∧
      500 ≤ (fun k => k) kF - (fun k => k) 0 ∧
      (∀ oob, waitMsgCheck bufF iF oob = false) ∧
      (∀ q, q < kF → (fun _ => none : Nat → Option Nat) q ≠ none ∨
        (fun k => k) q - (fun k => k) 0 < 500)) ∧
    waitMsgDefaultTimeout = 500 :=
  waitMsg_timeout_c7 (fun k => k) (fun _ => none) (fun _ => 0) 500 0 500
    (by omega) (fun _ _ => rfl) (fun _ _ h => Option.noConfusion h)
    (fun _ _ h => h) (by decide)

end UHF
